import Mathlib

/-!
Verification of the `prices.py` stock-quote module.

The module delegates every data request to an external market-data provider
(yfinance).  We embed the provider as a `Provider` structure: its `history`
field answers a period-scoped historical query for a ticker — depending, in
general, on the log of calls already made, so that a provider whose answers
change between successive calls is expressible — and its `info` field answers
the descriptive-metadata query with a key-value bag.  A provider call may fail
(transport/authentication/shape error), modelled by `Except String`.

Every embedded function threads an explicit call log (the list of
`(ticker, period)` pairs passed to `history`, in order), so that claims about
how many provider calls are issued, and in what order, are provable.

Python dicts are embedded as ordered association lists with Python's
insertion semantics: updating an existing key keeps its position, a new key
is appended at the end.
-/

namespace YF

/-- One row of the pandas OHLCV table returned by `stock.history(...)`:
Open/High/Low/Close/Volume columns. -/
structure Record where
  Open : Rat
  High : Rat
  Low : Rat
  Close : Rat
  Volume : Rat
deriving DecidableEq, Repr

/-- A value in the provider's info bag (`stock.info`): a string or a number. -/
inductive Value where
  | str : String → Value
  | num : Rat → Value
deriving DecidableEq, Repr

/-- The log of `history` calls issued so far: `(ticker, period)` pairs in
call order. -/
abbrev CallLog : Type := List (String × String)

/-- The external market-data provider (yfinance).  `history` may consult the
call log, so stateful behaviour (different answers to successive identical
queries) is expressible; `info` returns the raw key-value metadata bag. -/
structure Provider where
  history : CallLog → String → String → Except String (List Record)
  info : String → List (String × Value)

/-- A provider whose historical answers do not depend on the call log:
repeated identical queries always return the same response. -/
def Stateless (p : Provider) : Prop :=
  ∀ (s s' : CallLog) (ticker period : String),
    p.history s ticker period = p.history s' ticker period

/-- Python dict lookup on an ordered association list (`d[k]` as an option,
i.e. `k in d` plus access). -/
def dictFind? {α : Type} (d : List (String × α)) (k : String) : Option α :=
  match d with
  | [] => none
  | (k', v) :: rest => if k' = k then some v else dictFind? rest k

/-- Python `dict.get(k, dflt)`: the value at `k`, or `dflt` when absent. -/
def dictGet {α : Type} (d : List (String × α)) (k : String) (dflt : α) : α :=
  (dictFind? d k).getD dflt

/-- Python `d[k] = v` on an ordered association list: an existing key keeps
its position and gets the new value; a fresh key is appended at the end. -/
def dictInsert {α : Type} (d : List (String × α)) (k : String) (v : α) :
    List (String × α) :=
  match d with
  | [] => [(k, v)]
  | (k', v') :: rest =>
      if k' = k then (k, v) :: rest else (k', v') :: dictInsert rest k v

/-- `data['Close'].iloc[-1]`-style access to the last row: pandas raises an
IndexError on an empty frame. -/
def iloc_last (data : List Record) : Except String Record :=
  match data.getLast? with
  | some r => .ok r
  | none => .error "IndexError"

/-- The pure part of `get_current_price`: given the provider's response to
`stock.history(period='1d')`, compute the function's return value.
`if not data.empty: return data['Close'].iloc[-1] else: return None`;
a provider failure propagates. -/
def priceOfHistory (hist : Except String (List Record)) :
    Except String (Option Rat) :=
  match hist with
  | .error e => .error e
  | .ok data =>
      if !data.isEmpty then
        match iloc_last data with
        | .ok r => .ok (some r.Close)
        | .error e => .error e
      else .ok none

/-- `get_current_price(ticker)`: one `stock.history(period='1d')` call
(appended to the log), then the close of the last row, or `None` on an
empty series. -/
def get_current_price (p : Provider) (s : CallLog) (ticker : String) :
    Except String (Option Rat) × CallLog :=
  (priceOfHistory (p.history s ticker "1d"), s ++ [(ticker, "1d")])

/-- `get_historical_prices(ticker, period='1mo')`: one
`stock.history(period=period)` call, returned unmodified. -/
def get_historical_prices (p : Provider) (s : CallLog) (ticker : String)
    (period : String := "1mo") : Except String (List Record) × CallLog :=
  (p.history s ticker period, s ++ [(ticker, period)])

/-- `get_stock_info(ticker)`: project the provider's info bag onto the nine
fixed keys, substituting `'N/A'` for each absent field; `'Symbol'` is the
input ticker verbatim. -/
def get_stock_info (p : Provider) (ticker : String) : List (String × Value) :=
  let info := p.info ticker
  [ ("Symbol", Value.str ticker),
    ("Company Name", dictGet info "longName" (Value.str "N/A")),
    ("Current Price", dictGet info "currentPrice" (Value.str "N/A")),
    ("Previous Close", dictGet info "previousClose" (Value.str "N/A")),
    ("Open", dictGet info "open" (Value.str "N/A")),
    ("Day High", dictGet info "dayHigh" (Value.str "N/A")),
    ("Day Low", dictGet info "dayLow" (Value.str "N/A")),
    ("Volume", dictGet info "volume" (Value.str "N/A")),
    ("Market Cap", dictGet info "marketCap" (Value.str "N/A")) ]

/-- The batch result dict: ticker to optional price, in insertion order. -/
abbrev Dict : Type := List (String × Option Rat)

/-- The `for ticker in tickers` loop of `get_multiple_stocks`: fetch each
ticker's price in order, storing it under the ticker's key; an uncaught
fetch failure aborts the loop and propagates. -/
def get_multiple_stocks_loop (p : Provider) (s : CallLog)
    (tickers : List String) (prices : Dict) : Except String Dict × CallLog :=
  match tickers with
  | [] => (.ok prices, s)
  | ticker :: rest =>
      match get_current_price p s ticker with
      | (.error e, s1) => (.error e, s1)
      | (.ok price, s1) =>
          get_multiple_stocks_loop p s1 rest (dictInsert prices ticker price)

/-- `get_multiple_stocks(tickers)`: starting from an empty dict, run the
fetch loop over the input list. -/
def get_multiple_stocks (p : Provider) (s : CallLog) (tickers : List String) :
    Except String Dict × CallLog :=
  get_multiple_stocks_loop p s tickers []

/-- First-occurrence deduplication with an explicit seen-set: the key
sequence a Python dict acquires when fed keys in list order. -/
def dedupFirstAux (seen : List String) : List String → List String
  | [] => []
  | t :: rest =>
      if t ∈ seen then dedupFirstAux seen rest
      else t :: dedupFirstAux (t :: seen) rest

/-- The distinct elements of a list, in order of first occurrence. -/
def dedupFirst (ts : List String) : List String :=
  dedupFirstAux [] ts

/-- The nine fixed keys of a `get_stock_info` result, in output order. -/
def infoKeys : List String :=
  ["Symbol", "Company Name", "Current Price", "Previous Close", "Open",
   "Day High", "Day Low", "Volume", "Market Cap"]

/-- The eight provider-backed output keys paired with the provider field
each one reads (`'Symbol'` reads no field). -/
def infoFieldMap : List (String × String) :=
  [ ("Company Name", "longName"),
    ("Current Price", "currentPrice"),
    ("Previous Close", "previousClose"),
    ("Open", "open"),
    ("Day High", "dayHigh"),
    ("Day Low", "dayLow"),
    ("Volume", "volume"),
    ("Market Cap", "marketCap") ]

/-- A sample OHLCV row with closing price `c`. -/
def sampleRecord (c : Rat) : Record :=
  { Open := c, High := c, Low := c, Close := c, Volume := 0 }

/-- A stateless provider: every one-day query answers a single row closing
at 5, and the info bag is empty. -/
def steadyProvider : Provider where
  history _ _ _ := .ok [sampleRecord 5]
  info _ := []

/-- A provider whose answers change between calls: the first history call
sees a row closing at 10, every later call a row closing at 12. -/
def shiftingProvider : Provider where
  history s _ _ := if s = [] then .ok [sampleRecord 10] else .ok [sampleRecord 12]
  info _ := []

/-- A provider that fails on ticker "B" and answers a row closing at 5 for
every other ticker. -/
def failingProvider : Provider where
  history _ t _ := if t = "B" then .error "boom" else .ok [sampleRecord 5]
  info _ := []

/-- A provider that always returns an empty series and an empty info bag. -/
def emptyProvider : Provider where
  history _ _ _ := .ok []
  info _ := []

/-! ### Helper lemmas -/

theorem dictFind?_insert_self {α : Type} (d : List (String × α)) (k : String) (v : α) :
    dictFind? (dictInsert d k v) k = some v := by
  induction d with
  | nil => simp [dictInsert, dictFind?]
  | cons hd rest ih =>
      obtain ⟨a, b⟩ := hd
      by_cases h : a = k
      · simp [dictInsert, h, dictFind?]
      · simp [dictInsert, h, dictFind?, ih]

theorem dictFind?_insert_ne {α : Type} (d : List (String × α)) (k k' : String) (v : α)
    (h : k' ≠ k) : dictFind? (dictInsert d k v) k' = dictFind? d k' := by
  have h2 : k ≠ k' := Ne.symm h
  induction d with
  | nil => simp [dictInsert, dictFind?, h2]
  | cons hd rest ih =>
      obtain ⟨a, b⟩ := hd
      by_cases ha : a = k
      · subst ha
        simp [dictInsert, dictFind?, h2]
      · simp [dictInsert, ha, dictFind?, ih]

theorem dictInsert_keys {α : Type} (d : List (String × α)) (k : String) (v : α) :
    (dictInsert d k v).map Prod.fst =
      if k ∈ d.map Prod.fst then d.map Prod.fst else d.map Prod.fst ++ [k] := by
  induction d with
  | nil => simp [dictInsert]
  | cons hd rest ih =>
      obtain ⟨a, b⟩ := hd
      by_cases h : a = k
      · subst h; simp [dictInsert]
      · by_cases hm : k ∈ rest.map Prod.fst <;>
          simp [dictInsert, h, ih, hm, Ne.symm h]

theorem dictGet_of_absent {α : Type} (d : List (String × α)) (k : String) (dflt : α)
    (h : dictFind? d k = none) : dictGet d k dflt = dflt := by
  simp [dictGet, h]

theorem priceOfHistory_ok_of_ne_nil (rows : List Record) (h : rows ≠ []) :
    priceOfHistory (.ok rows) = .ok (some ((rows.getLast h).Close)) := by
  have hne : rows.isEmpty = false := by simp [h]
  simp [priceOfHistory, hne, iloc_last, List.getLast?_eq_getLast_of_ne_nil h]

theorem get_current_price_fst_of_stateless (p : Provider) (hp : Stateless p)
    (s s' : CallLog) (t : String) :
    (get_current_price p s t).1 = (get_current_price p s' t).1 := by
  simp [get_current_price, hp s s' t]

theorem dedupFirstAux_congr (l : List String) : ∀ (s1 s2 : List String),
    (∀ x, x ∈ s1 ↔ x ∈ s2) → dedupFirstAux s1 l = dedupFirstAux s2 l := by
  induction l with
  | nil => intro s1 s2 _; rfl
  | cons t rest ih =>
      intro s1 s2 h
      by_cases ht : t ∈ s1
      · simp [dedupFirstAux, ht, (h t).mp ht, ih s1 s2 h]
      · have ht2 : t ∉ s2 := fun hh => ht ((h t).mpr hh)
        simp only [dedupFirstAux, if_neg ht, if_neg ht2]
        exact congrArg _ (ih (t :: s1) (t :: s2) (by intro x; simp [h x]))

theorem loop_ok_log (p : Provider) (ts : List String) :
    ∀ (s s' : CallLog) (acc d : Dict),
      get_multiple_stocks_loop p s ts acc = (.ok d, s') →
      s' = s ++ ts.map (fun t => (t, "1d")) := by
  induction ts with
  | nil =>
      intro s s' acc d h
      simp [get_multiple_stocks_loop] at h
      simp [h.2]
  | cons t rest ih =>
      intro s s' acc d h
      simp only [get_multiple_stocks_loop, get_current_price] at h
      cases hh : priceOfHistory (p.history s t "1d") with
      | error e => rw [hh] at h; simp at h
      | ok v =>
          rw [hh] at h
          have := ih (s ++ [(t, "1d")]) s' (dictInsert acc t v) d h
          simp [this]

theorem loop_ok_keys (p : Provider) (ts : List String) :
    ∀ (s s' : CallLog) (acc d : Dict),
      get_multiple_stocks_loop p s ts acc = (.ok d, s') →
      d.map Prod.fst = acc.map Prod.fst ++ dedupFirstAux (acc.map Prod.fst) ts := by
  induction ts with
  | nil =>
      intro s s' acc d h
      simp [get_multiple_stocks_loop] at h
      simp [h.1, dedupFirstAux]
  | cons t rest ih =>
      intro s s' acc d h
      simp only [get_multiple_stocks_loop, get_current_price] at h
      cases hh : priceOfHistory (p.history s t "1d") with
      | error e => rw [hh] at h; simp at h
      | ok v =>
          rw [hh] at h
          have hrec := ih (s ++ [(t, "1d")]) s' (dictInsert acc t v) d h
          rw [hrec, dictInsert_keys]
          by_cases hm : t ∈ acc.map Prod.fst
          · simp [hm, dedupFirstAux]
          · simp only [if_neg hm, dedupFirstAux, if_neg hm, List.append_assoc,
              List.singleton_append]
            refine congrArg _ (congrArg _ ?_)
            exact dedupFirstAux_congr rest (acc.map Prod.fst ++ [t]) (t :: acc.map Prod.fst)
              (by intro x; simp; tauto)

theorem loop_ok_find (p : Provider) (hp : Stateless p) (ts : List String) :
    ∀ (s s' : CallLog) (acc d : Dict),
      get_multiple_stocks_loop p s ts acc = (.ok d, s') →
      ∀ t : String,
        (t ∈ ts → ∃ v, (get_current_price p [] t).1 = .ok v ∧ dictFind? d t = some v) ∧
        (t ∉ ts → dictFind? d t = dictFind? acc t) := by
  induction ts with
  | nil =>
      intro s s' acc d h t
      simp [get_multiple_stocks_loop] at h
      exact ⟨by simp, fun _ => by rw [h.1]⟩
  | cons t0 rest ih =>
      intro s s' acc d h t
      simp only [get_multiple_stocks_loop, get_current_price] at h
      cases hh : priceOfHistory (p.history s t0 "1d") with
      | error e => rw [hh] at h; simp at h
      | ok v =>
          rw [hh] at h
          have hiso : (get_current_price p [] t0).1 = .ok v := by
            rw [get_current_price_fst_of_stateless p hp [] s t0]
            simp [get_current_price, hh]
          have hrec := ih (s ++ [(t0, "1d")]) s' (dictInsert acc t0 v) d h
          constructor
          · intro hmem
            by_cases hr : t ∈ rest
            · exact (hrec t).1 hr
            · have ht0 : t = t0 := by
                rcases List.mem_cons.mp hmem with h1 | h1
                · exact h1
                · exact absurd h1 hr
              subst ht0
              refine ⟨v, hiso, ?_⟩
              rw [(hrec t).2 hr, dictFind?_insert_self]
          · intro hmem
            have hr : t ∉ rest := fun hc => hmem (List.mem_cons_of_mem _ hc)
            have hne : t ≠ t0 := fun hc => hmem (hc ▸ List.mem_cons_self t0 rest)
            rw [(hrec t).2 hr, dictFind?_insert_ne _ _ _ _ hne]

theorem loop_append (p : Provider) (l1 : List String) :
    ∀ (l2 : List String) (s : CallLog) (acc : Dict),
      get_multiple_stocks_loop p s (l1 ++ l2) acc =
        match get_multiple_stocks_loop p s l1 acc with
        | (.ok d, s1) => get_multiple_stocks_loop p s1 l2 d
        | (.error e, s1) => ((.error e : Except String Dict), s1) := by
  induction l1 with
  | nil => intro l2 s acc; rfl
  | cons t rest ih =>
      intro l2 s acc
      simp only [List.cons_append, get_multiple_stocks_loop, get_current_price]
      cases hh : priceOfHistory (p.history s t "1d") with
      | error e => rfl
      | ok v => exact ih l2 (s ++ [(t, "1d")]) (dictInsert acc t v)

/-! ### Claim theorems -/

/-- Claim C2: for every ticker whose one-day history query returns a
non-empty series, `get_current_price` returns exactly the closing value of
the last record of that series. -/
theorem get_current_price_last_close (p : Provider) (s : CallLog) (t : String)
    (rows : List Record) (hrows : p.history s t "1d" = .ok rows) (hne : rows ≠ []) :
    (get_current_price p s t).1 = .ok (some ((rows.getLast hne).Close)) := by
  simp [get_current_price, hrows, priceOfHistory_ok_of_ne_nil rows hne]

/-- Witness for C2: a provider answering a single row closing at 5 yields
current price 5. -/
theorem get_current_price_last_close_witness :
    (get_current_price steadyProvider [] "AAPL").1 = .ok (some (5 : Rat)) := by
  have h := get_current_price_last_close steadyProvider [] "AAPL"
    [sampleRecord 5] rfl (by simp)
  simpa [sampleRecord] using h

/-- Claim C3: for every ticker whose one-day history query returns an empty
series, `get_current_price` returns the absent-value sentinel `none` — not
an error and not a numeric zero. -/
theorem get_current_price_empty_series (p : Provider) (s : CallLog) (t : String)
    (h : p.history s t "1d" = .ok []) :
    (get_current_price p s t).1 = .ok none := by
  simp [get_current_price, h, priceOfHistory]

/-- Witness for C3: the always-empty provider yields `none`. -/
theorem get_current_price_empty_series_witness :
    (get_current_price emptyProvider [] "AAPL").1 = .ok none :=
  get_current_price_empty_series emptyProvider [] "AAPL" rfl

/-- Claim C6: `get_historical_prices` returns the provider's historical
table unmodified (same rows, same order, or the provider's own failure),
issuing exactly one history call for the requested period. -/
theorem get_historical_prices_unmodified (p : Provider) (s : CallLog)
    (t per : String) :
    (get_historical_prices p s t per).1 = p.history s t per ∧
    (get_historical_prices p s t per).2 = s ++ [(t, per)] :=
  ⟨rfl, rfl⟩

/-- Claim C10: calling `get_historical_prices` without a period argument is
identical to an explicit call with period `'1mo'`. -/
theorem get_historical_prices_default_period (p : Provider) (s : CallLog)
    (t : String) :
    get_historical_prices p s t = get_historical_prices p s t "1mo" :=
  rfl

/-- Claim C7: `get_multiple_stocks` on the empty list returns the empty
mapping and issues zero provider calls (the call log is unchanged). -/
theorem get_multiple_stocks_empty (p : Provider) (s : CallLog) :
    get_multiple_stocks p s [] = (.ok [], s) :=
  rfl

/-- Claim C5: on input `["A", "A"]` against a provider returning price 10
for the first call and 12 for the second, the final mapping is `{A: 12}`
(last write wins). -/
theorem get_multiple_stocks_last_write_wins :
    (get_multiple_stocks shiftingProvider [] ["A", "A"]).1 =
      .ok [("A", some 12)] :=
  rfl

/-- Claim C1: for every list of tickers, a successful `get_multiple_stocks`
run against a stateless provider returns a mapping whose keys are exactly
the symbols occurring in the input, each bound to the value that
`get_current_price` returns for that symbol called in isolation. -/
theorem get_multiple_stocks_isolation (p : Provider) (hp : Stateless p)
    (tickers : List String) (s s' : CallLog) (d : Dict)
    (h : get_multiple_stocks p s tickers = (.ok d, s')) :
    (∀ t : String, (dictFind? d t).isSome ↔ t ∈ tickers) ∧
    (∀ t ∈ tickers, ∃ v, (get_current_price p [] t).1 = .ok v ∧
      dictFind? d t = some v) := by
  have hfind := loop_ok_find p hp tickers s s' [] d h
  constructor
  · intro t
    constructor
    · intro hsome
      by_contra hmem
      rw [(hfind t).2 hmem] at hsome
      simp [dictFind?] at hsome
    · intro hmem
      obtain ⟨v, _, hv⟩ := (hfind t).1 hmem
      simp [hv]
  · intro t hmem
    exact (hfind t).1 hmem

/-- Witness for C1: the stateless steady provider on `["A", "B"]`. -/
theorem get_multiple_stocks_isolation_witness :
    (dictFind? [("A", some (5 : Rat)), ("B", some (5 : Rat))] "A").isSome ↔
      "A" ∈ ["A", "B"] :=
  (get_multiple_stocks_isolation steadyProvider (fun _ _ _ _ => rfl)
    ["A", "B"] [] [("A", "1d"), ("B", "1d")]
    [("A", some (5 : Rat)), ("B", some (5 : Rat))] rfl).1 "A"

/-- Claim C8: if every ticker before `t` fetches successfully and the fetch
for `t` fails, `get_multiple_stocks` propagates that failure: the whole
batch aborts with the same error, and no call is issued for the tickers
after `t`. -/
theorem get_multiple_stocks_error_propagates (p : Provider)
    (l1 l2 : List String) (t : String) (s s1 s2 : CallLog) (d1 : Dict)
    (e : String)
    (h1 : get_multiple_stocks p s l1 = (.ok d1, s1))
    (h2 : get_current_price p s1 t = (.error e, s2)) :
    get_multiple_stocks p s (l1 ++ t :: l2) = (.error e, s2) := by
  unfold get_multiple_stocks at h1 ⊢
  rw [loop_append p l1 (t :: l2) s [], h1]
  simp only [get_multiple_stocks_loop]
  rw [h2]

/-- Witness for C8: the provider failing on "B" aborts the batch
`["A", "B", "C"]` after the call for "B", never reaching "C". -/
theorem get_multiple_stocks_error_propagates_witness :
    get_multiple_stocks failingProvider [] (["A"] ++ "B" :: ["C"]) =
      (.error "boom", [("A", "1d"), ("B", "1d")]) :=
  get_multiple_stocks_error_propagates failingProvider ["A"] ["C"] "B"
    [] [("A", "1d")] [("A", "1d"), ("B", "1d")] [("A", some (5 : Rat))] "boom"
    rfl rfl

/-- Claim C9: a successful `get_multiple_stocks` run issues exactly one
one-day history call per element of the input list, in input order, and the
result's keys appear in input order (first occurrence of each symbol). -/
theorem get_multiple_stocks_sequential (p : Provider) (tickers : List String)
    (s s' : CallLog) (d : Dict)
    (h : get_multiple_stocks p s tickers = (.ok d, s')) :
    s' = s ++ tickers.map (fun t => (t, "1d")) ∧
    d.map Prod.fst = dedupFirst tickers := by
  refine ⟨loop_ok_log p tickers s s' [] d h, ?_⟩
  have hkeys := loop_ok_keys p tickers s s' [] d h
  simpa [dedupFirst] using hkeys

/-- Witness for C9: the steady provider on `["A", "B", "A"]` issues three
calls in order and keys come out as `["A", "B"]`. -/
theorem get_multiple_stocks_sequential_witness :
    ([("A", "1d"), ("B", "1d"), ("A", "1d")] : CallLog) =
      [] ++ (["A", "B", "A"].map (fun t => (t, "1d"))) ∧
    ([("A", some (5 : Rat)), ("B", some (5 : Rat))] : Dict).map Prod.fst =
      dedupFirst ["A", "B", "A"] :=
  get_multiple_stocks_sequential steadyProvider ["A", "B", "A"] []
    [("A", "1d"), ("B", "1d"), ("A", "1d")]
    [("A", some (5 : Rat)), ("B", some (5 : Rat))] rfl

/-- Claim C4: `get_stock_info` always returns exactly the nine fixed keys in
order; `'Symbol'` holds the input ticker verbatim; and every provider-backed
key whose provider field is absent holds the `'N/A'` sentinel. -/
theorem get_stock_info_fixed_shape (p : Provider) (t : String) :
    (get_stock_info p t).map Prod.fst = infoKeys ∧
    dictFind? (get_stock_info p t) "Symbol" = some (Value.str t) ∧
    (∀ dk fk : String, (dk, fk) ∈ infoFieldMap →
      dictFind? (p.info t) fk = none →
      dictFind? (get_stock_info p t) dk = some (Value.str "N/A")) := by
  refine ⟨rfl, rfl, ?_⟩
  intro dk fk hmem habs
  fin_cases hmem <;>
    simp [get_stock_info, dictFind?, dictGet_of_absent _ _ _ habs]

/-- Witness for C4: against an empty info bag, "Company Name" comes out as
the `'N/A'` sentinel. -/
theorem get_stock_info_fixed_shape_witness :
    (("Company Name", "longName") ∈ infoFieldMap) ∧
    dictFind? (get_stock_info emptyProvider "AAPL") "Company Name" =
      some (Value.str "N/A") :=
  ⟨by decide,
   (get_stock_info_fixed_shape emptyProvider "AAPL").2.2 "Company Name"
     "longName" (by decide) rfl⟩

end YF
